import Mathlib

/-!
Shallow embedding of the AQDx validator rule engine from
src/validate_aqdx.py: the exact decimal classifier used by
DecimalPrecisionCheck, the precision/scale rule, the geo plausibility
rule, and the violation vocabulary both rules emit, together with proofs
of the specified properties.
-/

/-- Cell values as the rules see them: a missing or null cell, or raw
numeric text. Typed cells reach the decimal check through str(), so text
is the canonical carrier; the special float spellings inf/nan and
underscore or whitespace decorations are outside the embedded fragment. -/
inductive Value where
  | null : Value
  | str (s : String) : Value
deriving DecidableEq

/-- A data row: 1-based row number plus the field-name/value cells. -/
structure Row where
  rowNumber : Nat
  cells : List (String × Value)
deriving DecidableEq

/-- Python dict-style lookup modelling row.get(name): a missing key and a
null cell both come back as null (frictionless returns None for both). -/
def Row.pyGet (r : Row) (k : String) : Value :=
  match r.cells.find? (fun p => p.1 == k) with
  | some p => p.2
  | none => Value.null

/-- A schema field as DecimalPrecisionCheck reads it: name, declared type,
and the constraints and custom descriptor dictionaries (only the integer
keys decimalPrecision and decimalScale matter to the rule). -/
structure SchemaField where
  name : String
  type : String
  constraints : List (String × Int)
  custom : List (String × Int)
deriving DecidableEq

/-- dict.get(key) on a string-keyed integer dictionary. -/
def dictGet (d : List (String × Int)) (k : String) : Option Int :=
  match d.find? (fun p => p.1 == k) with
  | some p => some p.2
  | none => none

/-- Digit character test of the decimal text grammar. -/
def isDigitCh (c : Char) : Bool := decide ('0' ≤ c) && decide (c ≤ '9')

/-- Leading sign handling of the Python decimal and float text grammar. -/
def splitSign (cs : List Char) : Bool × List Char :=
  match cs with
  | [] => (false, [])
  | c :: rest =>
    if c = '-' then (true, rest)
    else if c = '+' then (false, rest)
    else (false, c :: rest)

/-- Mantissa of a decimal literal: digits, optionally a point and further
digits, with at least one digit overall. Returns the integer digits and
the fractional digits. -/
def parseMantissa (cs : List Char) : Option (List Char × List Char) :=
  let ipart := cs.takeWhile isDigitCh
  match cs.dropWhile isDigitCh with
  | [] => if ipart.isEmpty then none else some (ipart, [])
  | c :: tail =>
    if c == '.' && tail.all isDigitCh && !(ipart.isEmpty && tail.isEmpty) then
      some (ipart, tail)
    else none

/-- Exponent part after the e/E marker: optional sign, at least one digit. -/
def parseExpPart (cs : List Char) : Option Int :=
  match splitSign cs with
  | (sg, ds) =>
    if !ds.isEmpty && ds.all isDigitCh then
      let n : Nat := ds.foldl (fun a c => 10 * a + (c.toNat - 48)) 0
      some (if sg then -(n : Int) else (n : Int))
    else none

/-- Character is not an exponent marker. -/
def notExpCh (c : Char) : Bool := !(c == 'e') && !(c == 'E')

/-- Coefficient digit cleanup of the Decimal constructor: leading zeros
are dropped and an all-zero coefficient keeps a single zero digit. -/
def stripLeadZeros (ds : List Nat) : List Nat :=
  let t := ds.dropWhile (fun d => d == 0)
  if t.isEmpty then [0] else t

/-- Result of Decimal(text).as_tuple(): sign flag, coefficient digits and
exponent. -/
structure DecTuple where
  sign : Bool
  digits : List Nat
  exponent : Int
deriving DecidableEq

/-- Finite-number core of the Python Decimal and float text grammar, with
the sign already removed by the caller: mantissa digits plus an optional
exponent part. Yields the coefficient digits and the exponent. -/
def pyDecimalCore (cs : List Char) : Option (List Nat × Int) :=
  let mant := cs.takeWhile notExpCh
  let rest := cs.dropWhile notExpCh
  match parseMantissa mant with
  | none => none
  | some (ipart, fpart) =>
    let eopt : Option Int :=
      match rest with
      | [] => some 0
      | _ :: ecs => parseExpPart ecs
    match eopt with
    | none => none
    | some e =>
      some (stripLeadZeros ((ipart ++ fpart).map (fun c => c.toNat - 48)),
            e - (fpart.length : Int))

/-- Decimal(text) on the finite fragment of the grammar, as a tuple. -/
def pyDecimalChars (cs : List Char) : Option DecTuple :=
  match splitSign cs with
  | (sg, cs1) =>
    match pyDecimalCore cs1 with
    | none => none
    | some p => some ⟨sg, p.1, p.2⟩

/-- Decimal(str(val)).as_tuple() from the try block of
DecimalPrecisionCheck.validate_row; none models the caught
ValueError/InvalidOperation. -/
def pyDecimal (s : String) : Option DecTuple := pyDecimalChars s.data

/-- scale = abs(exponent) if exponent < 0 else 0 (line 61). -/
def decScale (dt : DecTuple) : Int := if dt.exponent < 0 then |dt.exponent| else 0

/-- num_digits = len(digits) (line 62). -/
def decNumDigits (dt : DecTuple) : Int := (dt.digits.length : Int)

/-- int_part = max(0, num_digits - scale) (line 63). -/
def decIntPart (dt : DecTuple) : Int := max 0 (decNumDigits dt - decScale dt)

/-- Precision as the check uses it: int_part + scale (line 74). -/
def decPrecision (dt : DecTuple) : Int := decIntPart dt + decScale dt

/-- Effective decimalPrecision limit: the constraints dictionary first,
then the custom descriptor keys as fallback (lines 43-49). -/
def dpMaxPrec (f : SchemaField) : Option Int :=
  match dictGet f.constraints "decimalPrecision" with
  | some v => some v
  | none => dictGet f.custom "decimalPrecision"

/-- Effective decimalScale limit, same lookup order. -/
def dpMaxScale (f : SchemaField) : Option Int :=
  match dictGet f.constraints "decimalScale" with
  | some v => some v
  | none => dictGet f.custom "decimalScale"

/-- Structured content of the DecimalPrecisionError note string. -/
inductive PrecNote where
  | scaleExceeded (observed allowed : Int) : PrecNote
  | precisionExceeded (observed allowed : Int) : PrecNote
deriving DecidableEq

/-- One decimal-precision-error cell violation, with the template
parameters the error carries. -/
structure DPViolation where
  rowNumber : Nat
  fieldName : String
  value : String
  precision : Int
  scale : Int
  note : PrecNote
deriving DecidableEq

/-- Per-field body of DecimalPrecisionCheck.validate_row (lines 39-84):
skip non-number or constraint-free fields, resolve the two limits with
Python truthiness (None or 0 means skip), skip null cells, classify, then
report a scale violation or else a precision violation. -/
def dpCheckField (row : Row) (f : SchemaField) : List DPViolation :=
  if f.type != "number" || f.constraints.isEmpty then []
  else
    match dpMaxPrec f, dpMaxScale f with
    | some mp, some ms =>
      if mp == 0 || ms == 0 then []
      else
        match row.pyGet f.name with
        | Value.null => []
        | Value.str s =>
          match pyDecimal s with
          | none => []
          | some dt =>
            if decScale dt > ms then
              [⟨row.rowNumber, f.name, s, mp, ms,
                PrecNote.scaleExceeded (decScale dt) ms⟩]
            else if decIntPart dt + decScale dt > mp then
              [⟨row.rowNumber, f.name, s, mp, ms,
                PrecNote.precisionExceeded (decIntPart dt + decScale dt) mp⟩]
            else []
    | _, _ => []

/-- DecimalPrecisionCheck.validate_row: fold over the schema fields in
order, yielding violations; the row state is threaded through unchanged
because the loop body only reads it. -/
def dpValidateRow (fields : List SchemaField) (row : Row) : Row × List DPViolation :=
  fields.foldl (fun st f => (st.1, st.2 ++ dpCheckField st.1 f)) (row, [])

/-- Coefficient of a decimal tuple read as one natural number. -/
def decCoefficient (dt : DecTuple) : Nat :=
  dt.digits.foldl (fun a d => 10 * a + d) 0

/-- Exact rational value of a finite decimal tuple, coefficient times ten
to the exponent. The binary rounding of the Python float type is
idealised to the exact value; the geo rule only compares the result
against decimal bounds. -/
def decToRat (dt : DecTuple) : ℚ :=
  let n : Int :=
    if dt.sign then -(decCoefficient dt : Int) else (decCoefficient dt : Int)
  if 0 ≤ dt.exponent then Rat.divInt (n * (10 : Int) ^ dt.exponent.toNat) 1
  else Rat.divInt n ((10 : Int) ^ (-dt.exponent).toNat)

/-- float(text) on the finite fragment of the float grammar; none models
the caught ValueError. -/
def pyFloat (s : String) : Option ℚ :=
  match pyDecimalChars s.data with
  | none => none
  | some dt => some (decToRat dt)

/-- Continental-US bounding box test, 24N..50N and 125W..66W (line 111). -/
def geoInBounds (la lo : ℚ) : Bool :=
  decide (24 ≤ la) && decide (la ≤ 50) && decide (-125 ≤ lo) && decide (lo ≤ -66)

/-- The same box with latitude and longitude interchanged (line 115). -/
def geoSwappedOk (la lo : ℚ) : Bool :=
  decide (24 ≤ lo) && decide (lo ≤ 50) && decide (-125 ≤ la) && decide (la ≤ -66)

/-- One hard null-island-error row violation. -/
structure NullIslandViolation where
  rowNumber : Nat
deriving DecidableEq

/-- One printed out-of-bounds warning: the observed coordinates and, when
the swapped pair is in bounds, the suggested (lon, lat) correction. -/
structure GeoAdvisory where
  rowNumber : Nat
  lat : ℚ
  lon : ℚ
  swapHint : Option (ℚ × ℚ)
deriving DecidableEq

/-- GeoLogicCheck.validate_row (lines 90-124): returns the row (which the
check only reads), the yielded hard violations, and the console warning
advisories as a separate stream. -/
def geoValidateRow (row : Row) : Row × List NullIslandViolation × List GeoAdvisory :=
  match row.pyGet "lat", row.pyGet "lon" with
  | Value.null, _ => (row, [], [])
  | Value.str _, Value.null => (row, [], [])
  | Value.str ls, Value.str los =>
    match pyFloat ls, pyFloat los with
    | some latF, some lonF =>
      if latF = 0 ∧ lonF = 0 then (row, [⟨row.rowNumber⟩], [])
      else if geoInBounds latF lonF then (row, [], [])
      else
        (row, [],
          [⟨row.rowNumber, latF, lonF,
            if geoSwappedOk latF lonF then some (lonF, latF) else none⟩])
    | _, _ => (row, [], [])

/-- The report error statistic counts only yielded errors; the printed
advisories never reach it. -/
def geoHardErrorCount (out : Row × List NullIslandViolation × List GeoAdvisory) : Nat :=
  out.2.1.length

/-- Modelled from the spec (section 8): the number of digits after the
decimal point of a numeric text. -/
def specDigitsAfterPoint (s : String) : Nat :=
  ((s.data.dropWhile (fun c => !(c == '.'))).drop 1).countP isDigitCh

/-- Modelled from the spec (section 8 and glossary): total count of
significant digits of a numeric text - its digit characters with leading
zeros dropped and trailing zeros kept. -/
def specSigDigits (s : String) : Nat :=
  (((s.data.filter isDigitCh).map (fun c => c.toNat - 48)).dropWhile (fun d => d == 0)).length

/-- Sign prefix of a rendered plain numeral. -/
def signChars (sg : Bool) : List Char := if sg then ['-'] else []

/-- Optional decimal point part of a rendered plain numeral. -/
def pointPart : Option (List Char) → List Char
  | none => []
  | some fp => '.' :: fp

/-- A plain decimal numeral built from a sign, integer digits and an
optional fractional part; every plain numeral the grammar accepts has
this shape. -/
def plainNumStr (sg : Bool) (ipart : List Char) (fpo : Option (List Char)) : String :=
  ⟨signChars sg ++ (ipart ++ pointPart fpo)⟩


theorem takeWhile_append_all {α : Type} (p : α → Bool) :
    ∀ (l r : List α), (∀ c ∈ l, p c = true) →
      (l ++ r).takeWhile p = l ++ r.takeWhile p ∧ (l ++ r).dropWhile p = r.dropWhile p
  | [], r, _ => by simp
  | a :: as, r, hl => by
    have ha : p a = true := hl a (List.mem_cons_self a as)
    have ht := takeWhile_append_all p as r (fun c hc => hl c (List.mem_cons_of_mem a hc))
    simp [ha, ht.1, ht.2]

theorem takeWhile_all_true {α : Type} (p : α → Bool) (l : List α)
    (h : ∀ c ∈ l, p c = true) :
    l.takeWhile p = l ∧ l.dropWhile p = [] := by
  have hh := takeWhile_append_all p l [] h
  simpa using hh

theorem isDigitCh_spec {c : Char} (h : isDigitCh c = true) :
    c ≠ '-' ∧ c ≠ '+' ∧ c ≠ '.' ∧ notExpCh c = true := by
  have h0 : ('0' ≤ c ∧ c ≤ '9') := by
    simpa [isDigitCh] using h
  have he : c ≠ 'e' := by
    intro hh; rw [hh] at h0; exact absurd h0 (by decide)
  have hE : c ≠ 'E' := by
    intro hh; rw [hh] at h0; exact absurd h0 (by decide)
  refine ⟨?_, ?_, ?_, ?_⟩
  · intro hh; rw [hh] at h0; exact absurd h0 (by decide)
  · intro hh; rw [hh] at h0; exact absurd h0 (by decide)
  · intro hh; rw [hh] at h0; exact absurd h0 (by decide)
  · simp [notExpCh, he, hE]

theorem splitSign_no_sign (cs : List Char)
    (h1 : cs.head? ≠ some '-') (h2 : cs.head? ≠ some '+') :
    splitSign cs = (false, cs) := by
  cases cs with
  | nil => rfl
  | cons c tl =>
    have hc1 : c ≠ '-' := by intro hh; exact h1 (by rw [hh]; rfl)
    have hc2 : c ≠ '+' := by intro hh; exact h2 (by rw [hh]; rfl)
    simp [splitSign, hc1, hc2]

theorem splitSign_signChars (sg : Bool) (cs : List Char)
    (h1 : cs.head? ≠ some '-') (h2 : cs.head? ≠ some '+') :
    splitSign (signChars sg ++ cs) = (sg, cs) := by
  cases sg with
  | false => simpa [signChars] using splitSign_no_sign cs h1 h2
  | true => simp [signChars, splitSign]

theorem stripLeadZeros_length (l : List Nat) :
    (stripLeadZeros l).length = max 1 (l.dropWhile (fun d => d == 0)).length := by
  unfold stripLeadZeros
  cases hl : l.dropWhile (fun d => d == 0) with
  | nil => simp [hl]
  | cons a tl =>
    simp only [hl, List.isEmpty_cons, if_neg]
    simp [Nat.max_eq_right]

theorem decScale_neg_len (sg : Bool) (ds : List Nat) (m : Nat) :
    decScale ⟨sg, ds, -(m : Int)⟩ = (m : Int) := by
  rcases Nat.eq_zero_or_pos m with hm | hm
  · subst hm; simp [decScale]
  · have hlt : (-(m : Int)) < 0 := by omega
    unfold decScale
    rw [if_pos hlt, abs_neg, Int.abs_natCast]

theorem parseMantissa_plain (ipart : List Char) (fpo : Option (List Char))
    (hd : ∀ c ∈ ipart ++ fpo.getD [], isDigitCh c = true)
    (hne : ipart ++ fpo.getD [] ≠ []) :
    parseMantissa (ipart ++ pointPart fpo) = some (ipart, fpo.getD []) := by
  have hip : ∀ c ∈ ipart, isDigitCh c = true :=
    fun c hc => hd c (List.mem_append_left _ hc)
  cases fpo with
  | none =>
    have ht := takeWhile_all_true isDigitCh ipart hip
    have hne2 : ipart ≠ [] := by simpa using hne
    have hemp : ipart.isEmpty = false := by
      cases ipart with
      | nil => exact absurd rfl hne2
      | cons a tl => rfl
    unfold parseMantissa
    simp only [pointPart, List.append_nil, ht.1, ht.2, hemp]
    rfl
  | some fp =>
    have hfp : ∀ c ∈ fp, isDigitCh c = true := by
      intro c hc
      exact hd c (List.mem_append_right _ (by simpa using hc))
    have hdot : isDigitCh '.' = false := by decide
    have ht := takeWhile_append_all isDigitCh ipart ('.' :: fp) hip
    have ht1 : (ipart ++ '.' :: fp).takeWhile isDigitCh = ipart := by
      rw [ht.1, List.takeWhile_cons_of_neg (by simp [hdot]), List.append_nil]
    have ht2 : (ipart ++ '.' :: fp).dropWhile isDigitCh = '.' :: fp := by
      rw [ht.2, List.dropWhile_cons_of_neg (by simp [hdot])]
    have hcond : !(ipart.isEmpty && fp.isEmpty) = true := by
      have hne2 : ipart ++ fp ≠ [] := by simpa using hne
      cases hi : ipart with
      | cons a tl => rfl
      | nil =>
        cases hf : fp with
        | cons a tl => rfl
        | nil => rw [hi, hf] at hne2; exact absurd rfl hne2
    unfold parseMantissa
    simp only [pointPart, ht1, ht2]
    simp [List.all_eq_true.2 hfp, hcond]
    intro hi hf
    simp [hi, hf] at hne

theorem pyDecimalCore_plain (ipart : List Char) (fpo : Option (List Char))
    (hd : ∀ c ∈ ipart ++ fpo.getD [], isDigitCh c = true)
    (hne : ipart ++ fpo.getD [] ≠ []) :
    pyDecimalCore (ipart ++ pointPart fpo) =
      some (stripLeadZeros ((ipart ++ fpo.getD []).map (fun c => c.toNat - 48)),
            -((fpo.getD []).length : Int)) := by
  have hall : ∀ c ∈ ipart ++ pointPart fpo, notExpCh c = true := by
    intro c hc
    rcases List.mem_append.1 hc with hci | hcp
    · exact (isDigitCh_spec (hd c (List.mem_append_left _ hci))).2.2.2
    · cases fpo with
      | none => simp [pointPart] at hcp
      | some fp =>
        simp only [pointPart] at hcp
        rcases List.mem_cons.1 hcp with hdot | hfp
        · rw [hdot]; decide
        · exact (isDigitCh_spec (hd c (List.mem_append_right _ (by simpa using hfp)))).2.2.2
  have ht := takeWhile_all_true notExpCh _ hall
  unfold pyDecimalCore
  simp only [ht.1, ht.2, parseMantissa_plain ipart fpo hd hne]
  have hz : ∀ k : Nat, (0 : Int) - (k : Int) = -(k : Int) := by intro k; omega
  cases fpo with
  | none => simp [hz]
  | some fp => simp [hz]

theorem pyDecimal_plain (sg : Bool) (ipart : List Char) (fpo : Option (List Char))
    (hd : (ipart ++ fpo.getD []).all isDigitCh = true)
    (hne : ipart ++ fpo.getD [] ≠ []) :
    pyDecimal (plainNumStr sg ipart fpo) =
      some ⟨sg, stripLeadZeros ((ipart ++ fpo.getD []).map (fun c => c.toNat - 48)),
            -((fpo.getD []).length : Int)⟩ := by
  have hd2 : ∀ c ∈ ipart ++ fpo.getD [], isDigitCh c = true := List.all_eq_true.1 hd
  have hip : ∀ c ∈ ipart, isDigitCh c = true :=
    fun c hc => hd2 c (List.mem_append_left _ hc)
  have hhead : ∀ x, (ipart ++ pointPart fpo).head? = some x → x ≠ '-' ∧ x ≠ '+' := by
    intro x hx
    cases hi : ipart with
    | cons a tl =>
      rw [hi] at hx
      simp only [List.cons_append, List.head?_cons, Option.some.injEq] at hx
      have ha := isDigitCh_spec (hip a (by rw [hi]; exact List.mem_cons_self a tl))
      rw [hx] at ha
      exact ⟨ha.1, ha.2.1⟩
    | nil =>
      rw [hi] at hx
      cases fpo with
      | none => simp [pointPart] at hx
      | some fp =>
        simp only [pointPart, List.nil_append, List.head?_cons, Option.some.injEq] at hx
        rw [← hx]
        exact ⟨by decide, by decide⟩
  have hh1 : (ipart ++ pointPart fpo).head? ≠ some '-' := by
    intro hc; exact absurd rfl (hhead '-' hc).1
  have hh2 : (ipart ++ pointPart fpo).head? ≠ some '+' := by
    intro hc; exact absurd rfl (hhead '+' hc).2
  show pyDecimalChars (signChars sg ++ (ipart ++ pointPart fpo)) = _
  unfold pyDecimalChars
  rw [splitSign_signChars sg _ hh1 hh2]
  simp only [pyDecimalCore_plain ipart fpo hd2 hne]

theorem specDigitsAfterPoint_plain (sg : Bool) (ipart : List Char)
    (fpo : Option (List Char))
    (hd : ∀ c ∈ ipart ++ fpo.getD [], isDigitCh c = true) :
    specDigitsAfterPoint (plainNumStr sg ipart fpo) = (fpo.getD []).length := by
  have hip : ∀ c ∈ ipart, isDigitCh c = true :=
    fun c hc => hd c (List.mem_append_left _ hc)
  have hpre : ∀ c ∈ signChars sg ++ ipart, (!(c == '.')) = true := by
    intro c hc
    rcases List.mem_append.1 hc with hcs | hci
    · cases sg with
      | true =>
        simp only [signChars, if_pos, List.mem_singleton] at hcs
        rw [hcs]; decide
      | false => simp [signChars] at hcs
    · have := (isDigitCh_spec (hip c hci)).2.2.1
      simpa using this
  have hsplit := takeWhile_append_all (fun c => !(c == '.')) (signChars sg ++ ipart)
      (pointPart fpo) hpre
  have hdata : (plainNumStr sg ipart fpo).data =
      (signChars sg ++ ipart) ++ pointPart fpo := by
    show signChars sg ++ (ipart ++ pointPart fpo) = _
    rw [List.append_assoc]
  unfold specDigitsAfterPoint
  rw [hdata, hsplit.2]
  cases fpo with
  | none => simp [pointPart]
  | some fp =>
    have hfp : ∀ c ∈ fp, isDigitCh c = true := by
      intro c hc
      exact hd c (List.mem_append_right _ (by simpa using hc))
    rw [pointPart, List.dropWhile_cons_of_neg (by decide)]
    simp only [List.drop_one, List.tail_cons, Option.getD_some]
    exact List.countP_eq_length.2 hfp

theorem specSigDigits_plain (sg : Bool) (ipart : List Char)
    (fpo : Option (List Char))
    (hd : ∀ c ∈ ipart ++ fpo.getD [], isDigitCh c = true) :
    specSigDigits (plainNumStr sg ipart fpo) =
      (((ipart ++ fpo.getD []).map (fun c => c.toNat - 48)).dropWhile
        (fun d => d == 0)).length := by
  have hip : ∀ c ∈ ipart, isDigitCh c = true :=
    fun c hc => hd c (List.mem_append_left _ hc)
  have hdata : (plainNumStr sg ipart fpo).data =
      signChars sg ++ (ipart ++ pointPart fpo) := rfl
  have hfilter : (plainNumStr sg ipart fpo).data.filter isDigitCh =
      ipart ++ fpo.getD [] := by
    rw [hdata, List.filter_append, List.filter_append]
    have h1 : (signChars sg).filter isDigitCh = [] := by
      cases sg with
      | true => rfl
      | false => rfl
    have h2 : ipart.filter isDigitCh = ipart := List.filter_eq_self.2 hip
    have h3 : (pointPart fpo).filter isDigitCh = fpo.getD [] := by
      cases fpo with
      | none => rfl
      | some fp =>
        have hfp : ∀ c ∈ fp, isDigitCh c = true := by
          intro c hc
          exact hd c (List.mem_append_right _ (by simpa using hc))
        rw [pointPart, List.filter_cons_of_neg (by decide)]
        simpa using List.filter_eq_self.2 hfp
    rw [h1, h2, h3, List.nil_append]
  unfold specSigDigits
  rw [hfilter]

/-- C1 (amended): for every plain decimal numeral, the classifier works on
the exact textual form (the embedding consumes the character sequence
directly, with no binary float round trip), the computed scale equals the
number of digits after the decimal point, and the computed precision
equals the significant-digit count except that it is never smaller than
the scale and never smaller than one: precision = max(scale, max(1,
significant digits)). In particular "10.50" gets scale 2 and precision 4.
(The unamended claim, precision = significant digits, fails at "0.05":
see the counterexample theorem.) -/
theorem classifier_text_decomposition (sg : Bool) (ipart : List Char)
    (fpo : Option (List Char))
    (hd : (ipart ++ fpo.getD []).all isDigitCh = true)
    (hne : ipart ++ fpo.getD [] ≠ []) :
    ∃ dt, pyDecimal (plainNumStr sg ipart fpo) = some dt ∧
      decScale dt = (specDigitsAfterPoint (plainNumStr sg ipart fpo) : Int) ∧
      decPrecision dt =
        max (decScale dt)
          ((max 1 (specSigDigits (plainNumStr sg ipart fpo)) : Nat) : Int) := by
  have hd2 : ∀ c ∈ ipart ++ fpo.getD [], isDigitCh c = true := List.all_eq_true.1 hd
  have hp := pyDecimal_plain sg ipart fpo hd hne
  refine ⟨_, hp, ?_, ?_⟩
  · rw [decScale_neg_len, specDigitsAfterPoint_plain sg ipart fpo hd2]
  · rw [specSigDigits_plain sg ipart fpo hd2]
    set k := (((ipart ++ fpo.getD []).map (fun c => c.toNat - 48)).dropWhile
      (fun d => d == 0)).length with hk
    have hnd : decNumDigits
        ⟨sg, stripLeadZeros ((ipart ++ fpo.getD []).map (fun c => c.toNat - 48)),
         -((fpo.getD []).length : Int)⟩ = ((max 1 k : Nat) : Int) := by
      unfold decNumDigits
      rw [stripLeadZeros_length]
    have hsc := decScale_neg_len sg
      (stripLeadZeros ((ipart ++ fpo.getD []).map (fun c => c.toNat - 48)))
      ((fpo.getD []).length)
    unfold decPrecision decIntPart
    rw [hnd, hsc]
    omega

/-- C1 counterexample: the literal claim says the computed precision is
the total count of significant digits, but for "0.05" (one significant
digit, no trailing zeros) the code computes precision 2, because the
integer-part term is clamped at zero and the scale 2 dominates. -/
theorem classifier_precision_not_sigdigits :
    (pyDecimal "0.05").map decPrecision = some 2 ∧
    (pyDecimal "0.05").map decScale = some 2 ∧
    specSigDigits "0.05" = 1 := by decide

/-- C1 witness: the amended theorem applied to the rendering of "10.50"
gives scale 2 and precision 4 exactly as the spec example demands. -/
theorem classifier_text_decomposition_witness :
    ((['1', '0'] ++ (some ['5', '0']).getD []).all isDigitCh = true) ∧
    (['1', '0'] ++ (some ['5', '0']).getD [] ≠ []) ∧
    plainNumStr false ['1', '0'] (some ['5', '0']) = "10.50" ∧
    (∃ dt, pyDecimal "10.50" = some dt ∧
      decScale dt = 2 ∧ decPrecision dt = 4) := by
  have hstr : plainNumStr false ['1', '0'] (some ['5', '0']) = "10.50" := by decide
  refine ⟨by decide, by decide, hstr, ?_⟩
  obtain ⟨dt, h1, h2, h3⟩ :=
    classifier_text_decomposition false ['1', '0'] (some ['5', '0'])
      (by decide) (by decide)
  rw [hstr] at h1 h2 h3
  refine ⟨dt, h1, ?_, ?_⟩
  · rw [h2, show specDigitsAfterPoint "10.50" = 2 from by decide]
    rfl
  · rw [h3, h2]
    rw [show specDigitsAfterPoint "10.50" = 2 from by decide,
        show specSigDigits "10.50" = 4 from by decide]
    rfl

/-- C6: every decomposition the classifier accepts satisfies
scale = max(0, -exponent), integer digits = max(0, digit count - scale),
precision = integer digits + scale, scale is nonnegative, precision is at
least the scale, and a plain integer numeral gets scale 0. -/
theorem decomposition_invariants (s : String) (dt : DecTuple)
    (h : pyDecimal s = some dt) :
    decScale dt = max 0 (-dt.exponent) ∧
    decIntPart dt = max 0 (decNumDigits dt - decScale dt) ∧
    decPrecision dt = decIntPart dt + decScale dt ∧
    0 ≤ decScale dt ∧
    decScale dt ≤ decPrecision dt ∧
    (∀ (sg : Bool) (ipart : List Char), ipart.all isDigitCh = true →
      ipart ≠ [] → s = plainNumStr sg ipart none → decScale dt = 0) := by
  have h1 : decScale dt = max 0 (-dt.exponent) := by
    unfold decScale
    split
    · rename_i hlt
      rw [abs_of_neg hlt]
      omega
    · omega
  refine ⟨h1, rfl, rfl, ?_, ?_, ?_⟩
  · rw [h1]; omega
  · unfold decPrecision decIntPart
    omega
  · intro sg ipart hall hne hs
    subst hs
    have hp := pyDecimal_plain sg ipart none (by simpa using hall)
      (by simpa using hne)
    rw [h] at hp
    have hdt : dt = ⟨sg,
        stripLeadZeros ((ipart ++ (none : Option (List Char)).getD []).map
          (fun c => c.toNat - 48)),
        -(((none : Option (List Char)).getD []).length : Int)⟩ :=
      Option.some.inj hp
    rw [hdt]
    simp [decScale]

/-- C6 witness: the integer numeral "7" is accepted with scale 0 and the
proved inequalities hold at its decomposition. -/
theorem decomposition_invariants_witness :
    pyDecimal "7" = some ⟨false, [7], 0⟩ ∧
    0 ≤ decScale ⟨false, [7], 0⟩ ∧
    decScale ⟨false, [7], 0⟩ ≤ decPrecision ⟨false, [7], 0⟩ ∧
    decScale ⟨false, [7], 0⟩ = 0 := by
  have h := decomposition_invariants "7" ⟨false, [7], 0⟩ (by decide)
  exact ⟨by decide, h.2.2.2.1, h.2.2.2.2.1,
    h.2.2.2.2.2 false ['7'] (by decide) (by decide) (by decide)⟩

/-- C10 counterexample: the literal claim quantifies over every accepted
numeric text, but negating an already signed text gives an unparsable
string, not an equal decomposition: "-5" is accepted while "--5" is
rejected. -/
theorem negated_signed_text_rejected :
    (pyDecimal "-5").isSome = true ∧ pyDecimal ("-" ++ "-5") = none := by decide

/-- C10 (amended): for every accepted numeric text that does not itself
start with a sign character, prefixing a minus sign yields the same
coefficient digits and exponent, hence exactly the same precision and the
same scale - the sign contributes to neither digit count. -/
theorem negated_text_same_decomposition (v : String) (dt : DecTuple)
    (h : pyDecimal v = some dt)
    (h1 : v.data.head? ≠ some '-') (h2 : v.data.head? ≠ some '+') :
    pyDecimal ("-" ++ v) = some ⟨true, dt.digits, dt.exponent⟩ ∧
    decPrecision ⟨true, dt.digits, dt.exponent⟩ = decPrecision dt ∧
    decScale ⟨true, dt.digits, dt.exponent⟩ = decScale dt := by
  refine ⟨?_, rfl, rfl⟩
  have hdata : ("-" ++ v).data = '-' :: v.data := by
    rw [String.data_append]
    rfl
  unfold pyDecimal at h ⊢
  rw [hdata]
  unfold pyDecimalChars at h ⊢
  rw [splitSign_no_sign v.data h1 h2] at h
  have hsplit : splitSign ('-' :: v.data) = (true, v.data) := by
    simp [splitSign]
  rw [hsplit]
  simp only at h ⊢
  cases hc : pyDecimalCore v.data with
  | none => rw [hc] at h; simp at h
  | some p =>
    rw [hc] at h
    simp only [Option.some.injEq] at h
    rw [← h]

/-- C10 witness: applying the amended theorem to "5" shows "-5" keeps the
decomposition of "5" up to the sign flag, with equal precision and scale. -/
theorem negated_text_same_decomposition_witness :
    pyDecimal "5" = some ⟨false, [5], 0⟩ ∧
    "5".data.head? ≠ some '-' ∧
    "5".data.head? ≠ some '+' ∧
    pyDecimal ("-" ++ "5") = some ⟨true, [5], 0⟩ ∧
    decPrecision ⟨true, [5], 0⟩ = decPrecision ⟨false, [5], 0⟩ ∧
    decScale ⟨true, [5], 0⟩ = decScale ⟨false, [5], 0⟩ := by
  have h := negated_text_same_decomposition "5" ⟨false, [5], 0⟩
    (by decide) (by decide) (by decide)
  exact ⟨by decide, by decide, by decide, h.1, h.2.1, h.2.2⟩

/-- C3: when the rule examines a field (number type, constraints present,
both limits declared and in effect) and the classified scale exceeds the
declared maximum scale, exactly one decimal-precision-error is emitted
and it cites the scale violation; the precision comparison is never
reached, and in general the rule emits at most one violation per field
per row, so scale and precision violations are mutually exclusive. -/
theorem scale_violation_excludes_precision (row : Row) (f : SchemaField)
    (s : String) (mp ms : Int) (dt : DecTuple)
    (htype : f.type = "number") (hcons : f.constraints.isEmpty = false)
    (hmp : dpMaxPrec f = some mp) (hms : dpMaxScale f = some ms)
    (hmp0 : mp ≠ 0) (hms0 : ms ≠ 0)
    (hval : row.pyGet f.name = Value.str s) (hdt : pyDecimal s = some dt)
    (hexceed : decScale dt > ms) :
    dpCheckField row f =
      [⟨row.rowNumber, f.name, s, mp, ms,
        PrecNote.scaleExceeded (decScale dt) ms⟩] ∧
    ∀ (r2 : Row) (f2 : SchemaField), (dpCheckField r2 f2).length ≤ 1 := by
  constructor
  · unfold dpCheckField
    simp only [htype, hcons, hmp, hms, hval, hdt]
    simp [hmp0, hms0, hexceed]
  · intro r2 f2
    unfold dpCheckField
    repeat' split
    all_goals simp

/-- C3 witness: "123.456" against maxPrecision 5 and maxScale 2 produces
exactly the scale violation 3 > 2, although the precision 6 also exceeds
5. -/
theorem scale_violation_excludes_precision_witness :
    pyDecimal "123.456" = some ⟨false, [1, 2, 3, 4, 5, 6], -3⟩ ∧
    decScale ⟨false, [1, 2, 3, 4, 5, 6], -3⟩ = 3 ∧
    decPrecision ⟨false, [1, 2, 3, 4, 5, 6], -3⟩ = 6 ∧
    dpCheckField ⟨6, [("value", Value.str "123.456")]⟩
        ⟨"value", "number", [("decimalPrecision", 5), ("decimalScale", 2)], []⟩ =
      [⟨6, "value", "123.456", 5, 2, PrecNote.scaleExceeded 3 2⟩] := by
  refine ⟨by decide, by decide, by decide, ?_⟩
  have h := scale_violation_excludes_precision
    ⟨6, [("value", Value.str "123.456")]⟩
    ⟨"value", "number", [("decimalPrecision", 5), ("decimalScale", 2)], []⟩
    "123.456" 5 2 ⟨false, [1, 2, 3, 4, 5, 6], -3⟩
    (by decide) (by decide) (by decide) (by decide) (by decide) (by decide)
    (by decide) (by decide) (by decide)
  rw [h.1]
  decide

/-- C4 (code bug evidence): a field declaring decimalPrecision 5 and
decimalScale 0 is skipped entirely by the rule, because the Python
truthiness test treats the declared limit 0 as absent, so the fractional
value "1.5" (scale 1, exceeding the declared maximum scale 0) produces no
violation, contradicting the spec, which admits maxScale = 0. -/
theorem zero_scale_constraint_skipped :
    dpMaxPrec ⟨"value", "number",
      [("decimalPrecision", 5), ("decimalScale", 0)], []⟩ = some 5 ∧
    dpMaxScale ⟨"value", "number",
      [("decimalPrecision", 5), ("decimalScale", 0)], []⟩ = some 0 ∧
    (pyDecimal "1.5").map decScale = some 1 ∧
    dpValidateRow
      [⟨"value", "number", [("decimalPrecision", 5), ("decimalScale", 0)], []⟩]
      ⟨1, [("value", Value.str "1.5")]⟩ =
      (⟨1, [("value", Value.str "1.5")]⟩, []) := by decide

/-- C7: a field value whose text the decimal constructor rejects is
skipped silently - the per-field check emits no violation for it and, as
a total function, never fails. -/
theorem unparsable_value_skipped (row : Row) (f : SchemaField) (s : String)
    (hval : row.pyGet f.name = Value.str s) (hparse : pyDecimal s = none) :
    dpCheckField row f = [] := by
  unfold dpCheckField
  simp only [hval, hparse]
  repeat' split
  all_goals rfl

/-- C7 witness: the non-numeric text "abc" is rejected by the classifier
and the rule emits nothing for the field holding it. -/
theorem unparsable_value_skipped_witness :
    Row.pyGet ⟨5, [("value", Value.str "abc")]⟩ "value" = Value.str "abc" ∧
    pyDecimal "abc" = none ∧
    dpCheckField ⟨5, [("value", Value.str "abc")]⟩
      ⟨"value", "number", [("decimalPrecision", 5), ("decimalScale", 2)], []⟩ = [] := by
  refine ⟨by decide, by decide, ?_⟩
  exact unparsable_value_skipped ⟨5, [("value", Value.str "abc")]⟩
    ⟨"value", "number", [("decimalPrecision", 5), ("decimalScale", 2)], []⟩
    "abc" (by decide) (by decide)

theorem dpValidateRow_fst (fields : List SchemaField) (row : Row) :
    (dpValidateRow fields row).1 = row := by
  have hgen : ∀ acc : List DPViolation,
      (fields.foldl (fun st f => (st.1, st.2 ++ dpCheckField st.1 f))
        (row, acc)).1 = row := by
    induction fields with
    | nil => intro acc; rfl
    | cons f fs ih => intro acc; exact ih (acc ++ dpCheckField row f)
  exact hgen []

/-- C9: neither rule changes the row state it is given - evaluating the
precision/scale rule over any schema and the geo rule over any row
returns the row component unchanged; the only effect is the violation
and advisory output. -/
theorem rules_leave_row_unchanged (fields : List SchemaField) (row : Row) :
    (dpValidateRow fields row).1 = row ∧ (geoValidateRow row).1 = row := by
  refine ⟨dpValidateRow_fst fields row, ?_⟩
  unfold geoValidateRow
  repeat' split
  all_goals rfl

/-- C5: when both coordinates are present and parse to exactly zero, the
geo rule yields exactly one hard row-level null-island violation and
stops - no bounds check runs and no advisory is printed, whatever else
the row contains. -/
theorem null_island_hard_stop (row : Row) (ls los : String)
    (hlat : row.pyGet "lat" = Value.str ls) (hlon : row.pyGet "lon" = Value.str los)
    (hla : pyFloat ls = some 0) (hlo : pyFloat los = some 0) :
    (geoValidateRow row).2 = ([⟨row.rowNumber⟩], []) := by
  have hmain : geoValidateRow row = (row, [⟨row.rowNumber⟩], []) := by
    unfold geoValidateRow
    simp only [hlat, hlon, hla, hlo]
    simp
  rw [hmain]

/-- C5 witness: the row (lat "0", lon "0.0", plus an unrelated field)
produces exactly the null-island violation and no advisory. -/
theorem null_island_hard_stop_witness :
    Row.pyGet ⟨2, [("lat", Value.str "0"), ("lon", Value.str "0.0"),
      ("site", Value.str "x")]⟩ "lat" = Value.str "0" ∧
    pyFloat "0" = some 0 ∧ pyFloat "0.0" = some 0 ∧
    (geoValidateRow ⟨2, [("lat", Value.str "0"), ("lon", Value.str "0.0"),
      ("site", Value.str "x")]⟩).2 = ([⟨2⟩], []) := by
  refine ⟨by decide, by decide, by decide, ?_⟩
  exact null_island_hard_stop
    ⟨2, [("lat", Value.str "0"), ("lon", Value.str "0.0"),
      ("site", Value.str "x")]⟩ "0" "0.0" (by decide) (by decide)
    (by decide) (by decide)

/-- C2: when both coordinates parse, are not both zero, and the pair is
outside the bounding box, the geo rule yields no hard violation and emits
exactly one advisory carrying the observed coordinates; the advisory
carries the (lon, lat) swap suggestion exactly when the interchanged pair
is inside the box; and the hard-error count of the output is zero, so the
advisory is never counted toward the report error total. -/
theorem out_of_bounds_soft_advisory (row : Row) (ls los : String) (la lo : ℚ)
    (hlat : row.pyGet "lat" = Value.str ls) (hlon : row.pyGet "lon" = Value.str los)
    (hla : pyFloat ls = some la) (hlo : pyFloat los = some lo)
    (hnz : ¬(la = 0 ∧ lo = 0)) (hnb : geoInBounds la lo = false) :
    (geoValidateRow row).2 =
      ([], [⟨row.rowNumber, la, lo,
        if geoSwappedOk la lo then some (lo, la) else none⟩]) ∧
    geoHardErrorCount (geoValidateRow row) = 0 := by
  have hmain : geoValidateRow row =
      (row, [], [⟨row.rowNumber, la, lo,
        if geoSwappedOk la lo then some (lo, la) else none⟩]) := by
    unfold geoValidateRow
    simp only [hlat, hlon, hla, hlo, hnb]
    rw [if_neg hnz]
    simp
  rw [hmain]
  exact ⟨rfl, rfl⟩

/-- C2 witness: the spec example lat -75.0, lon 40.0 (a transposed
in-bounds pair) yields exactly one advisory whose swap hint is
(40, -75), and a hard-error count of zero. -/
theorem out_of_bounds_soft_advisory_witness :
    Row.pyGet ⟨3, [("lat", Value.str "-75.0"), ("lon", Value.str "40.0")]⟩ "lat" =
      Value.str "-75.0" ∧
    pyFloat "-75.0" = some (-75) ∧ pyFloat "40.0" = some 40 ∧
    ¬((-75 : ℚ) = 0 ∧ (40 : ℚ) = 0) ∧ geoInBounds (-75) 40 = false ∧
    geoSwappedOk (-75) 40 = true ∧
    (geoValidateRow ⟨3, [("lat", Value.str "-75.0"), ("lon", Value.str "40.0")]⟩).2 =
      ([], [⟨3, -75, 40, some (40, -75)⟩]) ∧
    geoHardErrorCount
      (geoValidateRow ⟨3, [("lat", Value.str "-75.0"), ("lon", Value.str "40.0")]⟩) = 0 := by
  have h := out_of_bounds_soft_advisory
    ⟨3, [("lat", Value.str "-75.0"), ("lon", Value.str "40.0")]⟩
    "-75.0" "40.0" (-75) 40 (by decide) (by decide) (by decide) (by decide)
    (by decide) (by decide)
  refine ⟨by decide, by decide, by decide, by decide, by decide, by decide, ?_, h.2⟩
  rw [h.1, show geoSwappedOk (-75 : ℚ) 40 = true from by decide]
  rfl

/-- C8: if the lat or lon cell is missing or null, or either present
value fails to parse as a float, the geo rule is a no-op: no violation,
no advisory, and as a total function it never fails. -/
theorem geo_missing_or_unparsable_noop (row : Row)
    (h : row.pyGet "lat" = Value.null ∨ row.pyGet "lon" = Value.null ∨
         (∃ ls, row.pyGet "lat" = Value.str ls ∧ pyFloat ls = none) ∨
         (∃ los, row.pyGet "lon" = Value.str los ∧ pyFloat los = none)) :
    (geoValidateRow row).2 = ([], []) := by
  unfold geoValidateRow
  rcases h with h1 | h1 | ⟨ls, h1, h2⟩ | ⟨los, h1, h2⟩
  · simp [h1]
  · cases hv : row.pyGet "lat" with
    | null => simp [hv]
    | str ls => simp [hv, h1]
  · cases hw : row.pyGet "lon" with
    | null => simp [h1, hw]
    | str los => simp [h1, hw, h2]
  · cases hv : row.pyGet "lat" with
    | null => simp [hv]
    | str ls =>
      cases hf : pyFloat ls with
      | none => simp [hv, h1, hf]
      | some a => simp [hv, h1, h2, hf]

/-- C8 witness: a row with no lat cell at all (lookup gives null) makes
the geo rule produce neither violations nor advisories. -/
theorem geo_missing_or_unparsable_noop_witness :
    Row.pyGet ⟨4, [("lon", Value.str "abc")]⟩ "lat" = Value.null ∧
    (geoValidateRow ⟨4, [("lon", Value.str "abc")]⟩).2 = ([], []) := by
  refine ⟨by decide, ?_⟩
  exact geo_missing_or_unparsable_noop ⟨4, [("lon", Value.str "abc")]⟩
    (Or.inl (by decide))
